import Mathlib

/-!
Verification of the STAMP MIL data-assembly subsystem
(`src/stamp/modeling/data.py` and `src/stamp/modeling/train.py`).

The Python code is shallowly embedded:
* Python `dict`s are association lists in insertion order with unique keys;
  `insertDict`/`dictOf` reproduce CPython's insert-or-overwrite semantics
  (value replaced in place, first-insertion position kept, fresh keys
  appended).
* `itertools.groupby` (which groups only *consecutive* equal keys) is
  `runsBy`.
* The filesystem is a function `String → FileState`; `Path.exists()` is
  `pathExists`, which is true for any present file, readable or not.
* Tensors of feature rows are lists of rows (`List (List Int)`), and
  `torch.randperm` is an arbitrary permutation of `List.range n` supplied
  as a parameter.
* Errors raised by the Python code become `Except`/inductive error values
  carrying exactly the data interpolated into the Python error message.
-/

/-- State of a path on disk.  `Path.exists()` in Python cannot tell a
readable archive from a zero-byte or otherwise unreadable one; only truly
absent paths are distinguishable. -/
inductive FileState where
  | absent
  | readable
  | unreadableOrEmpty
deriving DecidableEq, Repr

/-- Embedding of Python's `Path.exists()`: true for any present file,
including zero-byte / unreadable ones. -/
def pathExists : FileState → Bool
  | .absent => false
  | .readable => true
  | .unreadableOrEmpty => true

/-- `PatientData` from `data.py`: ground truth (possibly explicitly absent)
plus the set of verified feature files (modelled as the list of its
elements in encounter order). -/
structure PatientData where
  ground_truth : Option String
  feature_files : List String
deriving DecidableEq, Repr

/-- Python dict insertion: overwrite in place if the key is present
(keeping its position), else append. -/
def insertDict {β : Type} (d : List (String × β)) (k : String) (v : β) :
    List (String × β) :=
  if d.any (fun kv => kv.1 = k) then
    d.map (fun kv => if kv.1 = k then (k, v) else kv)
  else d ++ [(k, v)]

/-- Python dict built from a sequence of key-value pairs (later pairs
overwrite earlier values). -/
def dictOf {β : Type} (l : List (String × β)) : List (String × β) :=
  l.foldl (fun d kv => insertDict d kv.1 kv.2) []

/-- Python dict lookup (keys are unique, so the first match is the value). -/
def dlookup {β : Type} (d : List (String × β)) (k : String) : Option β :=
  (d.find? (fun kv => kv.1 = k)).map Prod.snd

/-- `itertools.groupby` over the slide→patient pairs, keyed by the patient:
maximal *consecutive* runs.  Returns `(patient, slides-of-run)` pairs. -/
def runsBy : List (String × String) → List (String × List String)
  | [] => []
  | (s, p) :: rest =>
    match runsBy rest with
    | [] => [(p, [s])]
    | (q, ss) :: more =>
      if p = q then (p, s :: ss) :: more else (p, [s]) :: (q, ss) :: more

/-- Body of the dict comprehension in `filter_complete_patient_data_`
(lines 296-308 of `data.py`): emit a patient iff it has slides and at
least one of them exists on disk, restricting to the existing ones. -/
def emitPatient (patient_to_slides : List (String × List String))
    (fs : String → FileState) (kv : String × Option String) :
    Option (String × PatientData) :=
  match dlookup patient_to_slides kv.1 with
  | none => none
  | some slides =>
    let existing_features_for_patient :=
      slides.filter (fun feature_path => pathExists (fs feature_path))
    if existing_features_for_patient.isEmpty then none
    else some (kv.1, ⟨kv.2, existing_features_for_patient⟩)

/-- `filter_complete_patient_data_` from `data.py`:
groups the slide→patient mapping by patient with `itertools.groupby`
(consecutive runs; later runs of the same patient overwrite earlier ones in
the dict comprehension), optionally extends the ground-truth dict with
`None` entries for patients that only occur in the slide mapping, and
emits every patient having a ground-truth entry, slides, and at least one
existing feature file. -/
def filter_complete_patient_data_
    (patient_to_ground_truth : List (String × Option String))
    (slide_to_patient : List (String × String))
    (drop_patients_with_missing_ground_truth : Bool)
    (fs : String → FileState) : List (String × PatientData) :=
  let patient_to_slides := dictOf (runsBy slide_to_patient)
  let ptg :=
    if drop_patients_with_missing_ground_truth then patient_to_ground_truth
    else
      dictOf
        (patient_to_slides.map (fun kv => (kv.1, (none : Option String))) ++
          patient_to_ground_truth)
  ptg.filterMap (emitPatient patient_to_slides fs)

/-- Third diagnostic set of `_log_patient_slide_feature_inconsitencies`
(lines 337-342 of `data.py`): the slides whose feature file does not exist
on disk, per `Path.exists()`. -/
def slides_without_features (slide_to_patient : List (String × String))
    (fs : String → FileState) : List String :=
  (slide_to_patient.map Prod.fst).filter (fun slide => ¬ pathExists (fs slide))

/-- `_to_fixed_size_bag` from `data.py` (lines 166-186).  `bag` is the
`n_tiles × F` tensor as a list of feature rows, `perm` stands for the
`torch.randperm(n_tiles)` draw, `bag_size` is the requested size.  The
first `bag_size` permuted indices select the sample; the sample is
zero-padded on the right up to `bag_size` rows of width `F`
(`bag_samples.shape[1]`); the second component is
`min(bag_size, len(bag))`, the true instance count. -/
def to_fixed_size_bag (bag : List (List Int)) (F : ℕ) (perm : List ℕ)
    (bag_size : ℕ) : List (List Int) × ℕ :=
  let bag_idxs := perm.take bag_size
  let bag_samples := bag_idxs.filterMap (fun i => bag[i]?)
  let zero_padded :=
    bag_samples ++
      List.replicate (bag_size - bag_samples.length) (List.replicate F 0)
  (zero_padded, min bag_size bag.length)

/-- The two `ValueError`s of the category gate in
`train_categorical_model_` (lines 145-155 of `train.py`), with the data
interpolated into their messages. -/
inductive TrainGateError where
  | notEnoughCategories (categories : List String)
  | underpopulatedCategories (cats : List (String × ℕ))
deriving DecidableEq, Repr

/-- The category gate of `train_categorical_model_` (lines 145-155):
`if len(categories) <= 1: raise ... elif any(category_counts < 16):
raise ...` listing every category with fewer than 16 samples. -/
def checkCategories (categories : List String) (category_counts : List ℕ) :
    Except TrainGateError Unit :=
  if categories.length ≤ 1 then .error (.notEnoughCategories categories)
  else if category_counts.any (fun c => c < 16) then
    .error (.underpopulatedCategories
      ((categories.zip category_counts).filter (fun pc => pc.2 < 16)))
  else .ok ()

/-- Class weighting from `train_categorical_model_` (lines 142-143):
`(x := category_counts.sum() / category_counts) / x.sum()`, stated over
exact rational arithmetic. -/
def category_weights (category_counts : List ℚ) : List ℚ :=
  let x := category_counts.map (fun c => category_counts.sum / c)
  x.map (fun xi => xi / x.sum)

/-- Modelled from the spec: the SplitPlanner is `sklearn`'s
`train_test_split` (external to `src/`, called at `train.py` line 111).
Per spec section 4.3 it is a seed-deterministic stratified shuffle: a
permutation of the input positions (stratification only constrains which
permutation the seed yields) split at an index into the two partitions. -/
def train_test_split (patients : List String) (perm : List ℕ) (k : ℕ) :
    List String × List String :=
  let shuffled := perm.filterMap (fun i => patients[i]?)
  (shuffled.take k, shuffled.drop k)

/-- The caller's post-hoc disjointness check in `train_categorical_model_`
(lines 130-133): `if overlap := set(train) & set(valid): raise
RuntimeError("unreachable: ...")`. -/
def overlapCheck (train_patients valid_patients : List String) :
    Except String Unit :=
  let overlap := train_patients.filter (fun p => valid_patients.contains p)
  if overlap.isEmpty then .ok ()
  else .error "unreachable: unexpected overlap between training and validation set"

/-- A pandas `DataFrame` as loaded by `_read_table`: named columns of
string cells, in column order. -/
structure Table where
  columns : List (String × List String)
deriving DecidableEq, Repr

/-- Column access (`df[label]` / `df.set_index(label)`). -/
def Table.col (t : Table) (label : String) : Option (List String) :=
  dlookup t.columns label

/-- `df.columns`, as interpolated into the clini loader's error messages. -/
def Table.columnNames (t : Table) : List String := t.columns.map Prod.fst

/-- Errors of the two table loaders, carrying exactly what their Python
messages carry: the clini loader's `ValueError` names the missing column
and the table's columns; an uncaught pandas `KeyError` names only the
missing column; `verify_integrity=True` raises on duplicate keys. -/
inductive LoadError where
  | valueErrorMissingColumn (missing : String) (available : List String)
  | keyError (missing : String)
  | duplicateKeyError (label : String)
deriving DecidableEq, Repr

/-- `patient_to_ground_truth_from_clini_table_` (lines 189-221 of
`data.py`): `set_index(patient_label, verify_integrity=True)` (KeyError on
a missing patient column, ValueError on duplicates) then
`[ground_truth_label]`; KeyErrors are caught and re-raised as ValueErrors
naming the missing column and the table's columns. -/
def patient_to_ground_truth_from_clini_table_ (clini_table : Table)
    (patient_label ground_truth_label : String) :
    Except LoadError (List (String × String)) :=
  match clini_table.col patient_label with
  | none =>
    .error (.valueErrorMissingColumn patient_label clini_table.columnNames)
  | some patients =>
    if patients.Nodup then
      match clini_table.col ground_truth_label with
      | none =>
        .error
          (.valueErrorMissingColumn ground_truth_label clini_table.columnNames)
      | some ground_truths => .ok (patients.zip ground_truths)
    else .error (.duplicateKeyError patient_label)

/-- `slide_to_patient_from_slide_table_` (lines 224-247 of `data.py`):
`set_index(filename_label, verify_integrity=True)[patient_label]` with no
surrounding try/except, prefixing each filename with `feature_dir`.  A
missing column escapes as a bare pandas `KeyError`. -/
def slide_to_patient_from_slide_table_ (slide_table : Table)
    (feature_dir : String) (patient_label filename_label : String) :
    Except LoadError (List (String × String)) :=
  match slide_table.col filename_label with
  | none => .error (.keyError filename_label)
  | some filenames =>
    if filenames.Nodup then
      match slide_table.col patient_label with
      | none => .error (.keyError patient_label)
      | some patients =>
        .ok ((filenames.map (fun f => feature_dir ++ "/" ++ f)).zip patients)
    else .error (.duplicateKeyError filename_label)

/-- Numpy elementwise equality of a ground truth (possibly `None`) against
a category string: `None == c` is `False`. -/
def gtEq : Option String → String → Bool
  | some s, c => s = c
  | none, _ => false

/-- The one-hot encoding computed in `dataloader_from_patient_data`
(lines 82-84 of `data.py`):
`raw_ground_truths.reshape(-1, 1) == categories`, one boolean row per
patient.  Nothing is raised for a ground truth absent from `categories`;
its row is simply all-`False`. -/
def encoded_one_hot (patient_ground_truths : List (Option String))
    (categories : List String) : List (List Bool) :=
  patient_ground_truths.map (fun g => categories.map (fun c => gtEq g c))

/-- Filesystem used in the C5 failing input: `s3` is absent, everything
else is a readable archive. -/
def fsInterleaved : String → FileState :=
  fun s => if s = "s3" then .absent else .readable

/-- Filesystem on which every path is a present but zero-byte or otherwise
unreadable archive. -/
def fsUnreadable : String → FileState := fun _ => .unreadableOrEmpty

/-! ## Helper lemmas -/

theorem map_fst_insertDict {β : Type} (d : List (String × β)) (k : String)
    (v : β) :
    (insertDict d k v).map Prod.fst =
      if d.any (fun kv => kv.1 = k) then d.map Prod.fst
      else d.map Prod.fst ++ [k] := by
  unfold insertDict
  by_cases hany : d.any (fun kv => kv.1 = k)
  · rw [if_pos hany, if_pos hany, List.map_map]
    apply List.map_congr_left
    intro kv _
    by_cases hk : kv.1 = k
    · simp [hk]
    · simp [hk]
  · rw [if_neg hany, if_neg hany]
    simp

theorem nodup_keys_insertDict {β : Type} (d : List (String × β)) (k : String)
    (v : β) (h : (d.map Prod.fst).Nodup) :
    ((insertDict d k v).map Prod.fst).Nodup := by
  rw [map_fst_insertDict]
  by_cases hany : d.any (fun kv => kv.1 = k)
  · rwa [if_pos hany]
  · rw [if_neg hany]
    refine h.append (List.nodup_singleton k) ?_
    intro a ha hak
    rw [List.mem_singleton] at hak
    subst hak
    rw [List.mem_map] at ha
    obtain ⟨kv, hkv, hfst⟩ := ha
    apply hany
    rw [List.any_eq_true]
    exact ⟨kv, hkv, by simp [hfst]⟩

theorem nodup_keys_foldl_insertDict {β : Type} :
    ∀ (l : List (String × β)) (d : List (String × β)),
      (d.map Prod.fst).Nodup →
      (((l.foldl (fun d kv => insertDict d kv.1 kv.2) d)).map Prod.fst).Nodup
  | [], _, h => h
  | kv :: l, d, h =>
    nodup_keys_foldl_insertDict l (insertDict d kv.1 kv.2)
      (nodup_keys_insertDict d kv.1 kv.2 h)

theorem nodup_keys_dictOf {β : Type} (l : List (String × β)) :
    ((dictOf l).map Prod.fst).Nodup :=
  nodup_keys_foldl_insertDict l [] (by simp)

theorem emitPatient_key (pts : List (String × List String))
    (fs : String → FileState) (kv : String × Option String)
    (b : String × PatientData) (h : emitPatient pts fs kv = some b) :
    b.1 = kv.1 := by
  unfold emitPatient at h
  split at h
  · exact absurd h (by simp)
  · simp only at h
    split at h
    · exact absurd h (by simp)
    · obtain ⟨h1, _⟩ := Prod.mk.injEq .. ▸ (Option.some.inj h)
      exact h1.symm

theorem keys_filterMap_key_preserving {α β γ : Type}
    (f : α × β → Option (α × γ))
    (hf : ∀ kv b, f kv = some b → b.1 = kv.1) :
    ∀ l : List (α × β),
      List.Sublist ((l.filterMap f).map Prod.fst) (l.map Prod.fst)
  | [] => by simp
  | kv :: l => by
    rw [List.filterMap_cons]
    cases hfkv : f kv with
    | none =>
      exact (keys_filterMap_key_preserving f hf l).cons kv.1
    | some b =>
      rw [List.map_cons, List.map_cons, hf kv b hfkv]
      exact (keys_filterMap_key_preserving f hf l).cons₂ kv.1

/-- Every record emitted by the reconciler comprehension has a non-empty
feature list all of whose members pass the `Path.exists()` check. -/
theorem emitPatient_sound (pts : List (String × List String))
    (fs : String → FileState) (kv : String × Option String) (p : String)
    (d : PatientData) (h : emitPatient pts fs kv = some (p, d)) :
    d.feature_files ≠ [] ∧ ∀ f ∈ d.feature_files, pathExists (fs f) = true := by
  unfold emitPatient at h
  split at h
  · exact absurd h (by simp)
  · rename_i slides hslides
    simp only at h
    split at h
    · exact absurd h (by simp)
    · rename_i hne
      simp only [Option.some.injEq, Prod.mk.injEq] at h
      obtain ⟨-, h2⟩ := h
      subst h2
      constructor
      · intro hnil
        exact hne (by rw [List.isEmpty_iff]; exact hnil)
      · intro f hf
        exact (List.mem_filter.mp hf).2

/-! ## C1 -/

/-- C1: for every ground-truth mapping (unique patient keys), slide→patient
mapping and filesystem, every `PatientData` returned by
`filter_complete_patient_data_` has a non-empty `feature_files` list whose
members all pass the `Path.exists()` check, and the returned mapping's
patient keys are duplicate-free. -/
theorem filter_complete_patient_data_sound
    (patient_to_ground_truth : List (String × Option String))
    (slide_to_patient : List (String × String)) (drop : Bool)
    (fs : String → FileState)
    (hkeys : (patient_to_ground_truth.map Prod.fst).Nodup) :
    (∀ p d,
        (p, d) ∈ filter_complete_patient_data_ patient_to_ground_truth
            slide_to_patient drop fs →
        d.feature_files ≠ [] ∧
          ∀ f ∈ d.feature_files, pathExists (fs f) = true) ∧
    ((filter_complete_patient_data_ patient_to_ground_truth slide_to_patient
        drop fs).map Prod.fst).Nodup := by
  constructor
  · intro p d hmem
    simp only [filter_complete_patient_data_] at hmem
    rw [List.mem_filterMap] at hmem
    obtain ⟨kv, _, hemit⟩ := hmem
    exact emitPatient_sound _ fs kv p d hemit
  · cases drop with
    | true =>
      simp only [filter_complete_patient_data_, if_true]
      exact hkeys.sublist
        (keys_filterMap_key_preserving _ (emitPatient_key _ fs) _)
    | false =>
      simp only [filter_complete_patient_data_, Bool.false_eq_true,
        if_false]
      exact (nodup_keys_dictOf _).sublist
        (keys_filterMap_key_preserving _ (emitPatient_key _ fs) _)

/-- Witness for C1 at a concrete input. -/
theorem filter_complete_patient_data_sound_witness :
    (([("P1", some "A")] : List (String × Option String)).map
        Prod.fst).Nodup ∧
    ((∀ p d,
        (p, d) ∈ filter_complete_patient_data_ [("P1", some "A")]
            [("s1", "P1")] true (fun _ => FileState.readable) →
        d.feature_files ≠ [] ∧
          ∀ f ∈ d.feature_files,
            pathExists ((fun _ => FileState.readable) f) = true) ∧
      ((filter_complete_patient_data_ [("P1", some "A")] [("s1", "P1")] true
          (fun _ => FileState.readable)).map Prod.fst).Nodup) :=
  ⟨by decide,
    filter_complete_patient_data_sound [("P1", some "A")] [("s1", "P1")]
      true (fun _ => FileState.readable) (by decide)⟩

/-! ## C2 -/

/-- C2 (code bug): `filter_complete_patient_data_` builds the
patient→slides map with `itertools.groupby` *without sorting*, so only
consecutive slides of a patient are grouped and the dict comprehension
keeps only the patient's last run.  On the interleaved slide table
`{s1:P1, s2:P2, s3:P1}` with every feature present, P1's record contains
only `s3` — slide `s1` is silently lost, contradicting the spec's
"group the slide→patient mapping by patient".  (Second conjunct: the
spec's own scenario, whose patients are not interleaved, does hold.) -/
theorem groupby_drops_interleaved_slides :
    filter_complete_patient_data_ [("P1", some "A"), ("P2", some "B")]
        [("s1", "P1"), ("s2", "P2"), ("s3", "P1")] true
        (fun _ => FileState.readable) =
      [("P1", ⟨some "A", ["s3"]⟩), ("P2", ⟨some "B", ["s2"]⟩)] ∧
    filter_complete_patient_data_
        [("P1", some "A"), ("P2", some "B"), ("P3", some "A")]
        [("s1", "P1"), ("s2", "P2"), ("s3", "P9")] true
        (fun s =>
          if s = "s1" ∨ s = "s2" then FileState.readable
          else FileState.absent) =
      [("P1", ⟨some "A", ["s1"]⟩), ("P2", ⟨some "B", ["s2"]⟩)] := by
  exact ⟨by decide, by decide⟩

/-! ## C5 -/

/-- C5 (code bug, same `groupby` slip as C2): with
`drop_patients_with_missing_ground_truth = False`, patient P1 appears in
the slide mapping (`s1`, `s3`), is absent from the clinical table, and its
feature file `s1` exists — yet P1 is dropped from the output, because the
unsorted `groupby` keeps only P1's last run `{s3}` and `s3` does not
exist.  The claim says P1 must be retained with ground truth `None`. -/
theorem missing_gt_patient_dropped_despite_existing_feature :
    pathExists (fsInterleaved "s1") = true ∧
    ("s1", "P1") ∈ [("s1", "P1"), ("s2", "P2"), ("s3", "P1")] ∧
    dlookup [("P2", some "B")] "P1" = none ∧
    filter_complete_patient_data_ [("P2", some "B")]
        [("s1", "P1"), ("s2", "P2"), ("s3", "P1")] false fsInterleaved =
      [("P2", ⟨some "B", ["s2"]⟩)] := by decide

/-! ## C7 -/

/-- C7 counterexample: a present but zero-byte/unreadable archive (`s1`)
passes the reconciler's `Path.exists()` check — it is *included* in the
emitted `feature_files` and is *not* in the "missing feature file"
diagnostic set, contradicting the claim that it is treated like a
non-existent file. -/
theorem unreadable_archive_passes_existence_check :
    filter_complete_patient_data_ [("P1", some "A")] [("s1", "P1")] true
        fsUnreadable =
      [("P1", ⟨some "A", ["s1"]⟩)] ∧
    slides_without_features [("s1", "P1")] fsUnreadable = [] := by decide

/-- C7 amended: the reconciler's existence check is bare path existence —
the "missing feature file" diagnostic set contains exactly the slides
whose path is absent from disk (never a present-but-unreadable one), and
every feature file of an emitted record is present on disk, readable or
not.  Unreadability surfaces only later, at bag-assembly time. -/
theorem existence_check_ignores_readability
    (slide_to_patient : List (String × String)) (fs : String → FileState) :
    (∀ s, s ∈ slides_without_features slide_to_patient fs ↔
        s ∈ slide_to_patient.map Prod.fst ∧ fs s = FileState.absent) ∧
    (∀ (patient_to_ground_truth : List (String × Option String))
        (drop : Bool) (p : String) (d : PatientData) (f : String),
        (p, d) ∈ filter_complete_patient_data_ patient_to_ground_truth
            slide_to_patient drop fs →
        f ∈ d.feature_files → fs f ≠ FileState.absent) := by
  constructor
  · intro s
    unfold slides_without_features
    rw [List.mem_filter]
    cases hfs : fs s with
    | absent => simp [pathExists, hfs]
    | readable => simp [pathExists, hfs]
    | unreadableOrEmpty => simp [pathExists, hfs]
  · intro ptg drop p d f hmem hf
    have hsound : d.feature_files ≠ [] ∧
        ∀ g ∈ d.feature_files, pathExists (fs g) = true := by
      simp only [filter_complete_patient_data_] at hmem
      rw [List.mem_filterMap] at hmem
      obtain ⟨kv, _, hemit⟩ := hmem
      exact emitPatient_sound _ fs kv p d hemit
    have hex := hsound.2 f hf
    intro habs
    rw [habs] at hex
    exact absurd hex (by simp [pathExists])

/-- Witness for C7's amended theorem at a concrete input: the unreadable
but present archive `s1` of the emitted record is not absent. -/
theorem existence_check_ignores_readability_witness :
    fsUnreadable "s1" ≠ FileState.absent :=
  (existence_check_ignores_readability [("s1", "P1")] fsUnreadable).2
    [("P1", some "A")] true "P1" ⟨some "A", ["s1"]⟩ "s1" (by decide)
    (by decide)

/-! ## C3 -/

theorem filterMap_getElem_range {α : Type} :
    ∀ l : List α, (List.range l.length).filterMap (fun i => l[i]?) = l
  | [] => by simp
  | a :: t => by
    rw [List.length_cons, List.range_succ_eq_map, List.filterMap_cons]
    simp only [List.getElem?_cons_zero]
    rw [List.filterMap_map]
    have hcomp : ((fun i => (a :: t)[i]?) ∘ Nat.succ) = fun i => t[i]? := by
      funext i
      simp [Function.comp]
    rw [hcomp, filterMap_getElem_range t]

theorem length_filterMap_of_isSome {α β : Type} (f : α → Option β) :
    ∀ l : List α, (∀ a ∈ l, (f a).isSome) → (l.filterMap f).length = l.length
  | [], _ => rfl
  | a :: t, h => by
    obtain ⟨b, hb⟩ :=
      Option.isSome_iff_exists.mp (h a (List.mem_cons_self a t))
    rw [List.filterMap_cons, hb, List.length_cons, List.length_cons,
      length_filterMap_of_isSome f t fun x hx => h x (List.mem_cons_of_mem a hx)]

/-- C3: for every non-empty bag of width-`F` rows, permutation draw and
positive size, `_to_fixed_size_bag` returns exactly `bag_size` rows with
`true_count ≤ bag_size`; with at least `bag_size` instances every returned
row is a row of the original bag and `true_count = bag_size`; with fewer,
the first `len(bag)` returned rows are a permutation of the bag, the rest
are zero rows, and `true_count = len(bag)`. -/
theorem to_fixed_size_bag_spec (bag : List (List Int)) (F : ℕ)
    (perm : List ℕ) (bag_size : ℕ) (hw : ∀ r ∈ bag, r.length = F)
    (hperm : perm.Perm (List.range bag.length)) (hbag : 1 ≤ bag.length)
    (hsize : 0 < bag_size) :
    (to_fixed_size_bag bag F perm bag_size).1.length = bag_size ∧
    (to_fixed_size_bag bag F perm bag_size).2 ≤ bag_size ∧
    (bag_size ≤ bag.length →
      (∀ r ∈ (to_fixed_size_bag bag F perm bag_size).1, r ∈ bag) ∧
      (to_fixed_size_bag bag F perm bag_size).2 = bag_size) ∧
    (bag.length < bag_size →
      ((to_fixed_size_bag bag F perm bag_size).1.take bag.length).Perm bag ∧
      (∀ r ∈ (to_fixed_size_bag bag F perm bag_size).1.drop bag.length,
          r = List.replicate F 0) ∧
      (to_fixed_size_bag bag F perm bag_size).2 = bag.length) := by
  have hplen : perm.length = bag.length := by simpa using hperm.length_eq
  have hmemlt : ∀ i ∈ perm, i < bag.length := by
    intro i hi
    simpa using hperm.mem_iff.mp hi
  set samples := (perm.take bag_size).filterMap (fun i => bag[i]?)
    with hsamples
  have hsamp_le : samples.length ≤ bag_size := by
    calc samples.length ≤ (perm.take bag_size).length :=
          List.length_filterMap_le _ _
      _ ≤ bag_size := by rw [List.length_take]; exact min_le_left _ _
  have hres1 : (to_fixed_size_bag bag F perm bag_size).1 =
      samples ++
        List.replicate (bag_size - samples.length) (List.replicate F 0) := rfl
  have hres2 : (to_fixed_size_bag bag F perm bag_size).2 =
      min bag_size bag.length := rfl
  have hmem_samples : ∀ r ∈ samples, r ∈ bag := by
    intro r hr
    rw [hsamples, List.mem_filterMap] at hr
    obtain ⟨i, hi, hgi⟩ := hr
    rw [List.getElem?_eq_some] at hgi
    obtain ⟨hlt, rfl⟩ := hgi
    exact List.getElem_mem hlt
  refine ⟨?_, ?_, ?_, ?_⟩
  · rw [hres1, List.length_append, List.length_replicate]
    omega
  · rw [hres2]
    exact min_le_left _ _
  · intro hge
    constructor
    · have hfull : samples.length = bag_size := by
        have hsome : ∀ i ∈ perm.take bag_size, ((fun i => bag[i]?) i).isSome := by
          intro i hi
          have hlt := hmemlt i (List.mem_of_mem_take hi)
          simp [List.getElem?_eq_getElem hlt]
        rw [hsamples, length_filterMap_of_isSome _ _ hsome, List.length_take,
          hplen]
        omega
      intro r hr
      rw [hres1, hfull] at hr
      simp only [Nat.sub_self, List.replicate_zero, List.append_nil] at hr
      exact hmem_samples r hr
    · rw [hres2]
      omega
  · intro hlt
    have htake : perm.take bag_size = perm :=
      List.take_of_length_le (by omega)
    have hsperm : samples.Perm bag := by
      rw [hsamples, htake]
      have h1 := hperm.filterMap (fun i => bag[i]?)
      rwa [filterMap_getElem_range] at h1
    have hslen : samples.length = bag.length := hsperm.length_eq
    refine ⟨?_, ?_, ?_⟩
    · rw [hres1, ← hslen, List.take_left]
      exact hsperm
    · intro r hr
      rw [hres1, ← hslen, List.drop_left] at hr
      exact List.eq_of_mem_replicate hr
    · rw [hres2]
      omega

/-- Witness for C3: a bag of three width-1 rows, permutation `[2,0,1]`,
requested size 5. -/
theorem to_fixed_size_bag_spec_witness :
    (∀ r ∈ [[(1 : Int)], [2], [3]], r.length = 1) ∧
    ([2, 0, 1] : List ℕ).Perm (List.range 3) ∧
    ((to_fixed_size_bag [[(1 : Int)], [2], [3]] 1 [2, 0, 1] 5).1.length = 5 ∧
      (to_fixed_size_bag [[(1 : Int)], [2], [3]] 1 [2, 0, 1] 5).2 ≤ 5 ∧
      ((5 : ℕ) ≤ 3 →
        (∀ r ∈ (to_fixed_size_bag [[(1 : Int)], [2], [3]] 1 [2, 0, 1] 5).1,
            r ∈ [[(1 : Int)], [2], [3]]) ∧
        (to_fixed_size_bag [[(1 : Int)], [2], [3]] 1 [2, 0, 1] 5).2 = 5) ∧
      ((3 : ℕ) < 5 →
        ((to_fixed_size_bag [[(1 : Int)], [2], [3]] 1 [2, 0, 1]
            5).1.take 3).Perm [[(1 : Int)], [2], [3]] ∧
        (∀ r ∈ (to_fixed_size_bag [[(1 : Int)], [2], [3]] 1 [2, 0, 1]
            5).1.drop 3, r = List.replicate 1 0) ∧
        (to_fixed_size_bag [[(1 : Int)], [2], [3]] 1 [2, 0, 1] 5).2 = 3)) :=
  ⟨by decide, by decide,
    to_fixed_size_bag_spec [[(1 : Int)], [2], [3]] 1 [2, 0, 1] 5 (by decide)
      (by decide) (by decide) (by decide)⟩

/-! ## C4 -/

/-- C4 counterexample: one category `A` with count 5.  Some count is below
the floor of 16, yet the gate does not raise the under-populated-category
error — the `elif` raises the too-few-categories error instead, so the two
conditions are not independent and the claimed iff fails. -/
theorem category_gate_not_independent :
    ¬ (checkCategories ["A"] [5] =
        .error (.underpopulatedCategories [("A", 5)]) ↔
      [5].any (fun c => c < 16) = true) := by
  intro h
  have h2 := h.mpr (by decide)
  have hgate : checkCategories ["A"] [5] =
      .error (.notEnoughCategories ["A"]) := rfl
  rw [hgate] at h2
  exact absurd h2 (by simp)

/-- C4 amended: the gate checks the number of categories first.  It raises
the too-few-categories error iff `len(categories) ≤ 1`; it raises the
under-populated-categories error — listing exactly the categories whose
count is below 16 — iff at least two categories exist AND some count is
below 16; it passes iff at least two categories exist and every count is
at least 16. -/
theorem checkCategories_characterization (categories : List String)
    (category_counts : List ℕ) :
    (checkCategories categories category_counts =
        .error (.notEnoughCategories categories) ↔
      categories.length ≤ 1) ∧
    (checkCategories categories category_counts =
        .error (.underpopulatedCategories
          ((categories.zip category_counts).filter (fun pc => pc.2 < 16))) ↔
      2 ≤ categories.length ∧
        category_counts.any (fun c => c < 16) = true) ∧
    (checkCategories categories category_counts = .ok () ↔
      2 ≤ categories.length ∧
        category_counts.all (fun c => 16 ≤ c) = true) := by
  unfold checkCategories
  by_cases h1 : categories.length ≤ 1
  · rw [if_pos h1]
    refine ⟨by simp [h1], ?_, ?_⟩
    · constructor
      · intro h
        exact absurd h (by simp)
      · intro h
        omega
    · constructor
      · intro h
        exact absurd h (by simp)
      · intro h
        omega
  · rw [if_neg h1]
    by_cases h2 : category_counts.any (fun c => c < 16) = true
    · rw [if_pos h2]
      refine ⟨?_, ?_, ?_⟩
      · constructor
        · intro h
          exact absurd h (by simp)
        · intro h
          omega
      · constructor
        · intro _
          exact ⟨by omega, h2⟩
        · intro _
          rfl
      · constructor
        · intro h
          exact absurd h (by simp)
        · rintro ⟨-, hall⟩
          rw [List.any_eq_true] at h2
          obtain ⟨c, hc, hlt⟩ := h2
          rw [List.all_eq_true] at hall
          have h16 := hall c hc
          simp only [decide_eq_true_eq] at hlt h16
          omega
    · rw [if_neg h2]
      refine ⟨?_, ?_, ?_⟩
      · constructor
        · intro h
          exact absurd h (by simp)
        · intro h
          omega
      · constructor
        · intro h
          exact absurd h (by simp)
        · rintro ⟨-, hany⟩
          exact absurd hany h2
      · constructor
        · intro _
          refine ⟨by omega, ?_⟩
          rw [List.all_eq_true]
          intro c hc
          by_contra hcon
          apply h2
          rw [List.any_eq_true]
          refine ⟨c, hc, ?_⟩
          simp only [decide_eq_true_eq] at hcon ⊢
          omega
        · intro _
          rfl

/-! ## C6 -/

/-- C6: for every duplicate-free patient list and every permutation draw,
the split planner's two partitions are disjoint, and the caller's post-hoc
overlap check in `train_categorical_model_` takes its success branch — the
`unreachable` RuntimeError branch cannot fire on any successful split. -/
theorem train_valid_split_disjoint (patients : List String)
    (perm : List ℕ) (k : ℕ) (hnd : patients.Nodup)
    (hperm : perm.Perm (List.range patients.length)) :
    (∀ p, p ∈ (train_test_split patients perm k).1 →
        p ∉ (train_test_split patients perm k).2) ∧
    overlapCheck (train_test_split patients perm k).1
        (train_test_split patients perm k).2 = .ok () := by
  set shuffled := perm.filterMap (fun i => patients[i]?) with hsh
  have hs1 : (train_test_split patients perm k).1 = shuffled.take k := rfl
  have hs2 : (train_test_split patients perm k).2 = shuffled.drop k := rfl
  have hsperm : shuffled.Perm patients := by
    rw [hsh]
    have h1 := hperm.filterMap (fun i => patients[i]?)
    rwa [filterMap_getElem_range] at h1
  have hsnd : shuffled.Nodup := hsperm.nodup_iff.mpr hnd
  have hdisj : ∀ p, p ∈ shuffled.take k → p ∉ shuffled.drop k := by
    have hnd2 := hsnd
    rw [← List.take_append_drop k shuffled, List.nodup_append] at hnd2
    exact fun p hp hq => hnd2.2.2 hp hq
  constructor
  · intro p hp
    rw [hs2]
    exact hdisj p (by rwa [hs1] at hp)
  · simp only [overlapCheck, hs1, hs2]
    have hempty : (shuffled.take k).filter
        (fun p => (shuffled.drop k).contains p) = [] := by
      rw [List.filter_eq_nil_iff]
      intro p hp hcon
      exact hdisj p hp (by simpa using hcon)
    rw [hempty]
    rfl

/-- Witness for C6 at a concrete input. -/
theorem train_valid_split_disjoint_witness :
    (["a", "b"] : List String).Nodup ∧
    ([1, 0] : List ℕ).Perm (List.range 2) ∧
    ((∀ p, p ∈ (train_test_split ["a", "b"] [1, 0] 1).1 →
        p ∉ (train_test_split ["a", "b"] [1, 0] 1).2) ∧
      overlapCheck (train_test_split ["a", "b"] [1, 0] 1).1
        (train_test_split ["a", "b"] [1, 0] 1).2 = .ok ()) :=
  ⟨by decide, by decide,
    train_valid_split_disjoint ["a", "b"] [1, 0] 1 (by decide) (by decide)⟩

/-! ## C8 -/

theorem sum_map_div (l : List ℚ) (s : ℚ) :
    (l.map (fun a => a / s)).sum = l.sum / s := by
  induction l with
  | nil => simp
  | cons a t ih => simp [ih, add_div]

/-- C8: over exact rational arithmetic, with every category count positive,
the weight vector `(x := counts.sum() / counts) / x.sum()` equals the
inverse-frequency vector `counts.sum() / counts[c]` renormalized by its
total, and its entries sum to exactly 1. -/
theorem category_weights_sum_one (category_counts : List ℚ)
    (hne : category_counts ≠ []) (hpos : ∀ c ∈ category_counts, 0 < c) :
    (category_weights category_counts).sum = 1 ∧
    category_weights category_counts =
      category_counts.map (fun c =>
        (category_counts.sum / c) /
          (category_counts.map (fun d => category_counts.sum / d)).sum) := by
  have hS : 0 < category_counts.sum := List.sum_pos _ hpos hne
  set x := category_counts.map (fun c => category_counts.sum / c) with hx
  have hxpos : ∀ xi ∈ x, 0 < xi := by
    intro xi hxi
    rw [hx, List.mem_map] at hxi
    obtain ⟨c, hc, rfl⟩ := hxi
    exact div_pos hS (hpos c hc)
  have hxne : x ≠ [] := by
    rw [hx]
    simpa using hne
  have hxsum : 0 < x.sum := List.sum_pos _ hxpos hxne
  constructor
  · show (x.map (fun xi => xi / x.sum)).sum = 1
    rw [sum_map_div, div_self (ne_of_gt hxsum)]
  · show x.map (fun xi => xi / x.sum) = _
    rw [hx, List.map_map]
    rfl

/-- Witness for C8: counts `[1, 3]`. -/
theorem category_weights_sum_one_witness :
    ([(1 : ℚ), 3] ≠ []) ∧ (∀ c ∈ [(1 : ℚ), 3], 0 < c) ∧
    ((category_weights [(1 : ℚ), 3]).sum = 1 ∧
      category_weights [(1 : ℚ), 3] =
        [(1 : ℚ), 3].map (fun c =>
          ([(1 : ℚ), 3].sum / c) /
            ([(1 : ℚ), 3].map (fun d => [(1 : ℚ), 3].sum / d)).sum)) :=
  ⟨by decide, by decide,
    category_weights_sum_one [(1 : ℚ), 3] (by decide) (by decide)⟩

/-! ## C9 -/

/-- C9 counterexample: a slide table with only a `PATIENT` column.  The
missing `FILENAME` column escapes as a bare pandas `KeyError` naming the
column but *not* listing the available columns, unlike the clini loader's
re-raised ValueError — the claim's "names the missing column and lists the
available columns" fails for the slide table. -/
theorem slide_table_missing_column_bare_keyerror :
    slide_to_patient_from_slide_table_ ⟨[("PATIENT", ["P1"])]⟩ "features"
        "PATIENT" "FILENAME" =
      .error (.keyError "FILENAME") ∧
    LoadError.keyError "FILENAME" ≠
      LoadError.valueErrorMissingColumn "FILENAME"
        (Table.columnNames ⟨[("PATIENT", ["P1"])]⟩) := by
  exact ⟨rfl, by simp⟩

/-- C9 amended: a missing required column makes loading fail immediately
in both loaders, but the payloads differ: the clini loader raises a
ValueError naming the missing column and listing the table's columns
(for either of its two required columns), while the slide loader lets the
pandas KeyError escape naming only the missing column. -/
theorem missing_column_error_payloads (clini slide : Table)
    (feature_dir : String)
    (patient_label ground_truth_label filename_label : String) :
    (clini.col patient_label = none →
      patient_to_ground_truth_from_clini_table_ clini patient_label
          ground_truth_label =
        .error (.valueErrorMissingColumn patient_label clini.columnNames)) ∧
    (∀ ps, clini.col patient_label = some ps → ps.Nodup →
      clini.col ground_truth_label = none →
      patient_to_ground_truth_from_clini_table_ clini patient_label
          ground_truth_label =
        .error
          (.valueErrorMissingColumn ground_truth_label clini.columnNames)) ∧
    (slide.col filename_label = none →
      slide_to_patient_from_slide_table_ slide feature_dir patient_label
          filename_label =
        .error (.keyError filename_label)) ∧
    (∀ fn, slide.col filename_label = some fn → fn.Nodup →
      slide.col patient_label = none →
      slide_to_patient_from_slide_table_ slide feature_dir patient_label
          filename_label =
        .error (.keyError patient_label)) := by
  refine ⟨?_, ?_, ?_, ?_⟩
  · intro hmiss
    unfold patient_to_ground_truth_from_clini_table_
    rw [hmiss]
  · intro ps hps hnd hmiss
    unfold patient_to_ground_truth_from_clini_table_
    rw [hps]
    simp only [if_pos hnd]
    rw [hmiss]
  · intro hmiss
    unfold slide_to_patient_from_slide_table_
    rw [hmiss]
  · intro fn hfn hnd hmiss
    unfold slide_to_patient_from_slide_table_
    rw [hfn]
    simp only [if_pos hnd]
    rw [hmiss]

/-- Witness for C9's amended theorem: a clini table with no columns. -/
theorem missing_column_error_payloads_witness :
    Table.col ⟨[]⟩ "PATIENT" = none ∧
    patient_to_ground_truth_from_clini_table_ ⟨[]⟩ "PATIENT" "TARGET" =
      .error (.valueErrorMissingColumn "PATIENT" (Table.columnNames ⟨[]⟩)) :=
  ⟨by decide,
    (missing_column_error_payloads ⟨[]⟩ ⟨[("PATIENT", ["P1"])]⟩ "features"
      "PATIENT" "TARGET" "FILENAME").1 (by decide)⟩

/-! ## C10 -/

/-- C10: when `dataloader_from_patient_data` is given an explicit
`categories` array, a patient whose ground truth (including `None`) is not
among the categories is encoded as the all-`False` row — the total
encoding raises nothing and the "exactly one hot entry per row" invariant
is silently violated. -/
theorem encoded_one_hot_unknown_category_all_zero
    (patient_ground_truths : List (Option String))
    (categories : List String) (i : ℕ)
    (hi : i < patient_ground_truths.length)
    (hg : ∀ s, patient_ground_truths.get ⟨i, hi⟩ = some s → s ∉ categories) :
    (encoded_one_hot patient_ground_truths categories).get
        ⟨i, by simpa [encoded_one_hot] using hi⟩ =
      List.replicate categories.length false := by
  unfold encoded_one_hot
  rw [List.get_map]
  rw [List.eq_replicate]
  refine ⟨by simp, ?_⟩
  intro b hb
  rw [List.mem_map] at hb
  obtain ⟨c, hc, rfl⟩ := hb
  cases hgt : patient_ground_truths.get ⟨i, hi⟩ with
  | none => rfl
  | some s =>
    have hns := hg s hgt
    simp only [gtEq, decide_eq_false_iff_not]
    intro hsc
    exact hns (hsc ▸ hc)

/-- Witness for C10: ground truth `"X"` against categories `["A", "B"]`
encodes to the all-`False` row `[false, false]`. -/
theorem encoded_one_hot_unknown_category_all_zero_witness :
    (encoded_one_hot [some "X"] ["A", "B"]).get ⟨0, by decide⟩ =
      List.replicate 2 false :=
  encoded_one_hot_unknown_category_all_zero [some "X"] ["A", "B"] 0
    (by decide) (by intro s hs hmem; cases hs; exact absurd hmem (by decide))
